import Mathlib

/-!
Verification development for the `scrape-rpm-data` ingestion pipeline.

The pipeline discovers instructor review pages, selects a representative
subset of each instructor's reviews, composes a weighted embedding vector,
and publishes (key, vector, metadata) records to a vector index with
known-key deduplication.

This file gives a shallow embedding of the four core components:
* the review data model (`src/models.py`),
* the review selector (`src/review_filter.py`, class `ProfessorFilter`),
* the embedding composer (`src/embeddings.py`,
  `EmbeddingService.generate_professor_embedding`), modelled over `ℝ` with
  the sentence encoder abstracted as a function parameter,
* the publish store (`src/pinecone_client.py`, `PineconeClient.upsert_batch`),
  with the remote index's successful receptions tracked explicitly,
* the paginated link-discovery loop (`src/search_school.py`,
  `search_school_for_professor_links`), with the browser environment
  abstracted as the list of successive page states,
and proves the specified properties about them.
-/

namespace ScrapeRPM

/-- The `YesNo` enum of `src/models.py`. -/
inductive YesNo where
  | yes
  | no
deriving DecidableEq

/-- The `Attendance` enum of `src/models.py`. -/
inductive Attendance where
  | mandatory
  | notMandatory
deriving DecidableEq

/-- The `Grade` enum of `src/models.py` (after `map_grade` bucketing). -/
inductive Grade where
  | A
  | B
  | C
  | D
  | F
  | notSureYet
deriving DecidableEq

/-- The calendar date carried by a review's `datetime` field; the selector
only ever reads the `year` component. -/
structure ReviewDate where
  year : Int
  month : Nat
  day : Nat
deriving DecidableEq

/-- The `ProfessorReview` model of `src/models.py`.  The float-valued
scores are modelled as rationals; vote counts are nonnegative integers as
enforced by the pydantic validators. -/
structure ProfessorReview where
  quality : ℚ
  difficulty : ℚ
  course : String
  date : ReviewDate
  review : String
  helpfulVotes : Nat
  unhelpfulVotes : Nat
  textbook : Option YesNo
  forCredit : Option YesNo
  attendence : Option Attendance
  grade : Option Grade
  wouldTakeAgain : Option YesNo
  tags : List String
deriving DecidableEq

/-- The `Professor` model of `src/models.py`. -/
structure Professor where
  name : String
  department : String
  university : String
  averageRating : ℚ
  numRatings : Nat
  tags : List String
  reviews : List ProfessorReview
deriving DecidableEq

/-- The record key built in `main.py` (`generate_embeddings_batch`, line 134):
spaces in the name and the university are replaced by underscores and the
two are joined with an underscore. -/
def professor_id (p : Professor) : String :=
  p.name.replace " " "_" ++ "_" ++ p.university.replace " " "_"

/-! ## ReviewSelector: `src/review_filter.py` -/

/-- Configuration state of `ProfessorFilter.__init__`; `current_year` is the
year `datetime.now().year` captured at construction and is a parameter of
the model (time is external). -/
structure ProfessorFilter where
  review_length_threshold : Nat
  years_limit : Int
  top_n : Nat
  current_year : Int
deriving DecidableEq

/-- Model of `ProfessorFilter.__init__` with its default arguments
(`review_length_treshold=50`, `years_limit=6`, `top_n=10`). -/
def ProfessorFilter.init (current_year : Int) : ProfessorFilter :=
  ⟨50, 6, 10, current_year⟩

/-- Helper for `pyWords`: scan the characters, breaking words at
whitespace runs; `acc` holds the reversed characters of the word being
read. -/
def splitWordsAux : List Char → List Char → List String
  | [], [] => []
  | [], acc => [String.mk acc.reverse]
  | c :: cs, acc =>
    if c.isWhitespace then
      match acc with
      | [] => splitWordsAux cs []
      | _ :: _ => String.mk acc.reverse :: splitWordsAux cs []
    else splitWordsAux cs (c :: acc)

/-- Python's `str.split()` with no separator: split on runs of whitespace,
ignoring leading and trailing whitespace, yielding the list of words. -/
def pyWords (s : String) : List String :=
  splitWordsAux s.data []

/-- The recency predicate of `_filter_by_recency` (line 29):
`current_year - review.date.year <= years_limit`. -/
abbrev passes_recency (f : ProfessorFilter) (r : ProfessorReview) : Prop :=
  f.current_year - r.date.year ≤ f.years_limit

/-- The substance predicate of `_filter_by_review_length` (lines 39-40):
`len(review.review.split()) >= review_length_threshold`. -/
abbrev passes_length (f : ProfessorFilter) (r : ProfessorReview) : Prop :=
  f.review_length_threshold ≤ (pyWords r.review).length

/-- Model of `_filter_by_recency` (lines 24-32). -/
def ProfessorFilter.filter_by_recency (f : ProfessorFilter)
    (reviews : List ProfessorReview) : List ProfessorReview :=
  reviews.filter fun r => passes_recency f r

/-- Model of `_filter_by_review_length` (lines 34-43). -/
def ProfessorFilter.filter_by_review_length (f : ProfessorFilter)
    (reviews : List ProfessorReview) : List ProfessorReview :=
  reviews.filter fun r => passes_length f r

/-- The ranking order of `_filter_top_reviews` (line 52):
`sorted(reviews, key=lambda x: x.helpfulVotes, reverse=True)` sorts
descending by helpful-vote count.  `voteOrder a b` holds when `a` may come
before `b`, i.e. when `a` has at least as many helpful votes. -/
def voteOrder (a b : ProfessorReview) : Prop :=
  b.helpfulVotes ≤ a.helpfulVotes

instance : DecidableRel voteOrder :=
  fun a b => Nat.decLe b.helpfulVotes a.helpfulVotes

instance : IsTotal ProfessorReview voteOrder :=
  ⟨fun a b => Nat.le_total b.helpfulVotes a.helpfulVotes⟩

instance : IsTrans ProfessorReview voteOrder :=
  ⟨fun _ _ _ hab hbc => le_trans hbc hab⟩

/-- Model of `_filter_top_reviews` (lines 45-52): Python's `sorted` is a stable
sort, modelled by `List.insertionSort` with `voteOrder` (stable descending
sort by helpful votes); `top_n` is capped to the number of available
reviews before slicing. -/
def ProfessorFilter.filter_top_reviews (f : ProfessorFilter)
    (reviews : List ProfessorReview) : List ProfessorReview :=
  (List.insertionSort voteOrder reviews).take (min f.top_n reviews.length)

/-- Model of `filter_reviews` (lines 14-22): recency filter, then length filter,
then ranking and cap. -/
def ProfessorFilter.filter_reviews (f : ProfessorFilter)
    (reviews : List ProfessorReview) : List ProfessorReview :=
  f.filter_top_reviews (f.filter_by_review_length (f.filter_by_recency reviews))

/-! ## EmbeddingComposer: `src/embeddings.py`

Vectors are lists of reals; the external sentence encoder
(`SentenceTransformer.encode`) is an abstract function parameter of type
`List String → List (List ℝ)`, assumed to return one `embedding_dim`-long
vector per input text. -/

/-- Pointwise addition of two vectors (`np.sum` ingredient). -/
def vecAdd (a b : List ℝ) : List ℝ :=
  List.zipWith (· + ·) a b

/-- Sum of a list of `dim`-dimensional vectors, starting from the zero
vector (`np.mean`'s numerator). -/
def vecSum (dim : Nat) (vs : List (List ℝ)) : List ℝ :=
  vs.foldr vecAdd (List.replicate dim 0)

/-- Model of `np.mean(vs, axis=0)` over a list of `dim`-dimensional vectors. -/
noncomputable def vecMean (dim : Nat) (vs : List (List ℝ)) : List ℝ :=
  (vecSum dim vs).map fun x => x / (vs.length : ℝ)

/-- Scalar multiplication of a vector (the `* weight` steps). -/
def vecScale (c : ℝ) (v : List ℝ) : List ℝ :=
  v.map fun x => c * x

/-- Sum of squared entries of a vector. -/
def sumSq (v : List ℝ) : ℝ :=
  (v.map fun x => x ^ 2).sum

/-- Euclidean norm of a vector. -/
noncomputable def l2norm (v : List ℝ) : ℝ :=
  Real.sqrt (sumSq v)

/-- Model of `sklearn.preprocessing.normalize` on a single row: divide by the L2
norm, leaving a zero-norm vector unchanged. -/
noncomputable def l2normalize (v : List ℝ) : List ℝ :=
  if l2norm v = 0 then v else v.map fun x => x / l2norm v

/-- Model of `EmbeddingService.generate_professor_embedding` (lines 24-65).
`encode` abstracts `self.generate_embeddings` and `embedding_dim` the
model's output dimension (768 by default).  When `tags` is empty the tag
sub-vector is the zero vector and the caller-supplied weights are
overridden to `weight_reviews = 1.0`, `weight_tags = 0.0` (lines 38-41);
both sub-vectors are unit-normalized, weighted, concatenated and the
concatenation unit-normalized again. -/
noncomputable def generate_professor_embedding
    (encode : List String → List (List ℝ)) (embedding_dim : Nat)
    (tags review_texts : List String)
    (weight_tags weight_reviews : ℝ) : List ℝ :=
  let tags_embedding : List ℝ :=
    if tags.isEmpty then List.replicate embedding_dim 0
    else vecMean embedding_dim (encode tags)
  let wReviews : ℝ := if tags.isEmpty then 1 else weight_reviews
  let wTags : ℝ := if tags.isEmpty then 0 else weight_tags
  let reviews_embedding : List ℝ :=
    l2normalize (vecMean embedding_dim (encode review_texts))
  let weighted_tags := vecScale wTags (l2normalize tags_embedding)
  let weighted_reviews := vecScale wReviews reviews_embedding
  l2normalize (weighted_tags ++ weighted_reviews)

/-! ## PublishStore: `src/pinecone_client.py`

The client state carries the known-key cache `existing_ids` and, as the
observable history of the remote index, the list of batches the index has
successfully received through `index.upsert`.  The outcome of the single
network call inside `upsert_batch` is a boolean parameter `storeOk`; a
failing call raises, modelled by the `storeUnavailable` outcome. -/

/-- Result of one `upsert_batch` call: normal return, or the propagated
store exception. -/
inductive UpsertOutcome where
  | ok
  | storeUnavailable
deriving DecidableEq

/-- State of `PineconeClient` (vector payloads `V` and metadata `M` are
opaque): the known-key cache plus the batches the remote store has
successfully received. -/
structure PineconeClient (V M : Type) where
  existing_ids : Finset String
  received : List (List (String × V × M))

/-- Python's 3-ary `zip`: truncates to the shortest input (line 83-86). -/
def zip3 {α β γ : Type} : List α → List β → List γ → List (α × β × γ)
  | a :: as, b :: bs, c :: cs => (a, b, c) :: zip3 as bs cs
  | _, _, _ => []

/-- Model of `PineconeClient.upsert_batch` (lines 77-104): pair the three input
lists positionally, drop the triples whose key is already cached, return
at once if nothing is left, otherwise submit the filtered batch in one
store call; on success add every submitted key to the cache, on failure
propagate the error leaving the state untouched. -/
def upsert_batch {V M : Type} (st : PineconeClient V M)
    (ids : List String) (embeddings : List V) (metadatas : List M)
    (storeOk : Bool) : PineconeClient V M × UpsertOutcome :=
  let vectors := zip3 ids embeddings metadatas
  let vectors_to_upsert := vectors.filter fun v => v.1 ∉ st.existing_ids
  if vectors_to_upsert.isEmpty then (st, .ok)
  else if storeOk then
    ({ existing_ids :=
         st.existing_ids ∪ (vectors_to_upsert.map fun v => v.1).toFinset,
       received := st.received ++ [vectors_to_upsert] }, .ok)
  else (st, .storeUnavailable)

/-! ## LinkDiscoverer: `src/search_school.py`

The browser is abstracted away: a run of the discovery loop is determined
by the successive directory-page states, each a list of teacher cards.  A
successful `retry_click_show_more` advances to the next page state; it
reports `False` (no more pages) exactly when no further page state
exists. -/

/-- One professor card as read in the scan loop (lines 117-133):
`review_count` is the parsed review-count badge (`none` when the badge
element or its digits are missing), `href` the card's link attribute. -/
structure TeacherCard where
  href : Option String
  review_count : Option Nat
deriving DecidableEq

/-- Model of `create_href_url` (lines 14-16): `urllib.parse.urljoin` against the
site base, which returns an absolute `url` unchanged and resolves a
site-relative one against the base. -/
def create_href_url (url : String) : String :=
  if url.data.take 4 = "http".data then url
  else "https://www.ratemyprofessors.com" ++ url

/-- Processing of a single card in the scan loop (lines 117-133): a card
contributes its resolved link only when its review-count badge parsed to a
positive number and it has an `href`; the link set deduplicates. -/
def scanCard (links : Finset String) (card : TeacherCard) : Finset String :=
  match card.review_count with
  | none => links
  | some n =>
    if 0 < n then
      match card.href with
      | some h => insert (create_href_url h) links
      | none => links
    else links

/-- One `ScanPage` pass over all cards of the current page (lines 114-133). -/
def scanCards (links : Finset String) (cards : List TeacherCard) : Finset String :=
  cards.foldl scanCard links

/-- The `while` loop of `search_school_for_professor_links`
(lines 109-137): while the accumulated count is `≤ max_links`, scan the
current page, then click `Show More`; the click fails (breaking the loop
with everything collected so far) exactly when no next page state is
left. -/
def discoverLoop : List (List TeacherCard) → Finset String → Nat → Finset String
  | [], links, _ => links
  | page :: rest, links, maxLinks =>
    if links.card ≤ maxLinks then
      let links2 := scanCards links page
      match rest with
      | [] => links2
      | _ :: _ => discoverLoop rest links2 maxLinks
    else links

/-- Model of `search_school_for_professor_links` (lines 56-141) after the landing
navigation, starting from the empty link set. -/
def search_school_for_professor_links (pages : List (List TeacherCard))
    (max_professor_links : Nat) : Finset String :=
  discoverLoop pages ∅ max_professor_links

/-! ## Lemmas about the publish store -/

/-- Python's 3-ary `zip` stops at the shortest input list. -/
lemma zip3_length {α β γ : Type} :
    ∀ (as : List α) (bs : List β) (cs : List γ),
      (zip3 as bs cs).length = min (min as.length bs.length) cs.length := by
  intro as
  induction as with
  | nil => intro bs cs; cases bs <;> cases cs <;> simp [zip3]
  | cons a as ih =>
    intro bs cs
    cases bs with
    | nil => cases cs <;> simp [zip3]
    | cons b bs =>
      cases cs with
      | nil => simp [zip3]
      | cons c cs =>
        simp only [zip3, List.length_cons, ih bs cs]
        omega

/-- When every positionally-paired key is already cached, `upsert_batch`
returns at once: no store call, no state change, no error. -/
lemma upsert_batch_skip {V M : Type} (st : PineconeClient V M)
    (ids : List String) (embs : List V) (mds : List M) (storeOk : Bool)
    (h : ∀ t ∈ zip3 ids embs mds, t.1 ∈ st.existing_ids) :
    upsert_batch st ids embs mds storeOk = (st, .ok) := by
  have hf : ((zip3 ids embs mds).filter fun v => v.1 ∉ st.existing_ids) = [] := by
    rw [List.filter_eq_nil_iff]
    intro a ha
    simpa using h a ha
  simp only [upsert_batch]
  rw [hf]
  simp

/-- After a successful `upsert_batch`, every positionally-paired key of the
call is in the known-key cache (it either already was, or was just added). -/
lemma upsert_batch_true_existing {V M : Type} (st : PineconeClient V M)
    (ids : List String) (embs : List V) (mds : List M) {t : String × V × M}
    (ht : t ∈ zip3 ids embs mds) :
    t.1 ∈ (upsert_batch st ids embs mds true).1.existing_ids := by
  by_cases hmem : t.1 ∈ st.existing_ids
  · unfold upsert_batch
    dsimp only
    split
    · exact hmem
    · simp only [if_true]
      exact Finset.mem_union_left _ hmem
  · have htf : t ∈ (zip3 ids embs mds).filter fun v => v.1 ∉ st.existing_ids := by
      rw [List.mem_filter]
      exact ⟨ht, by simpa using hmem⟩
    unfold upsert_batch
    dsimp only
    split
    · next hempty =>
      rw [List.isEmpty_iff] at hempty
      rw [hempty] at htf
      simp at htf
    · simp only [if_true]
      refine Finset.mem_union_right _ ?_
      rw [List.mem_toFinset]
      exact List.mem_map_of_mem _ htf

/-- Claim C1: a successful `upsert_batch` submits exactly the triples whose
key is absent from the known-key cache (in one store call, or none when
nothing is new), adds every paired key to the cache, and an immediately
repeated call with the same data filters every key out: it changes nothing —
in particular the store receives no further batch — and returns without
error. -/
theorem upsert_batch_second_call_noop {V M : Type} (st : PineconeClient V M)
    (ids : List String) (embs : List V) (mds : List M) :
    (upsert_batch st ids embs mds true).2 = .ok ∧
    (upsert_batch st ids embs mds true).1.received =
      st.received ++
        (if ((zip3 ids embs mds).filter fun v => v.1 ∉ st.existing_ids).isEmpty
         then []
         else [(zip3 ids embs mds).filter fun v => v.1 ∉ st.existing_ids]) ∧
    (∀ t ∈ zip3 ids embs mds,
       t.1 ∈ (upsert_batch st ids embs mds true).1.existing_ids) ∧
    upsert_batch (upsert_batch st ids embs mds true).1 ids embs mds true =
      ((upsert_batch st ids embs mds true).1, .ok) := by
  refine ⟨?_, ?_, ?_, ?_⟩
  · unfold upsert_batch
    dsimp only
    split
    · rfl
    · simp
  · unfold upsert_batch
    dsimp only
    split
    · next hempty => simp [hempty]
    · next hempty => simp [hempty]
  · intro t ht
    exact upsert_batch_true_existing st ids embs mds ht
  · exact upsert_batch_skip _ ids embs mds true
      (fun t ht => upsert_batch_true_existing st ids embs mds ht)

/-- Claim C4: when the store call inside `upsert_batch` fails (the filtered
batch being non-empty, so a store call is actually made), the error is
propagated as the `StoreUnavailable` outcome and the client state — in
particular the known-key cache — is exactly what it was before the call. -/
theorem upsert_batch_failure_preserves_state {V M : Type}
    (st : PineconeClient V M)
    (ids : List String) (embs : List V) (mds : List M)
    (h : ((zip3 ids embs mds).filter fun v => v.1 ∉ st.existing_ids).isEmpty
          = false) :
    upsert_batch st ids embs mds false = (st, .storeUnavailable) := by
  simp only [upsert_batch]
  rw [h]
  simp

/-- Witness for claim C4 at a concrete input: one new key, empty cache. -/
theorem upsert_batch_failure_preserves_state_witness :
    upsert_batch (⟨∅, []⟩ : PineconeClient Nat Nat) ["a"] [0] [0] false =
      (⟨∅, []⟩, .storeUnavailable) :=
  upsert_batch_failure_preserves_state ⟨∅, []⟩ ["a"] [0] [0] (by decide)

/-- Claim C10: called with key, vector and metadata lists of unequal
lengths, `upsert_batch` raises no error and (here from an empty cache)
submits exactly the positionally-paired triples of the common prefix,
whose length is the minimum of the three list lengths — the excess
elements of the longer lists are silently ignored. -/
theorem upsert_batch_truncates_to_min {V M : Type}
    (ids : List String) (embs : List V) (mds : List M) :
    (upsert_batch (⟨∅, []⟩ : PineconeClient V M) ids embs mds true).2 = .ok ∧
    (upsert_batch (⟨∅, []⟩ : PineconeClient V M) ids embs mds true).1.received =
      (if (zip3 ids embs mds).isEmpty then [] else [zip3 ids embs mds]) ∧
    (zip3 ids embs mds).length = min (min ids.length embs.length) mds.length := by
  have hfilter : ((zip3 ids embs mds).filter
      fun v => v.1 ∉ (∅ : Finset String)) = zip3 ids embs mds := by
    rw [List.filter_eq_self]
    intro a _
    simp
  refine ⟨?_, ?_, zip3_length ids embs mds⟩
  · unfold upsert_batch
    dsimp only
    split
    · rfl
    · simp
  · simp only [upsert_batch]
    rw [hfilter]
    by_cases he : (zip3 ids embs mds).isEmpty
    · simp [he]
    · simp [he]

/-- Claim C9: the published record key depends only on the entity's name
and institution (spaces replaced by underscores, joined by an underscore),
so two professors with equal name and equal university get the identical
key, and once the first record is published a batch carrying the second
entity's key is filtered out entirely — the state (cache and store history)
is unchanged and no error occurs. -/
theorem professor_id_dedup {V M : Type} (p q : Professor)
    (st : PineconeClient V M) (v1 v2 : V) (m1 m2 : M)
    (hn : p.name = q.name) (hu : p.university = q.university) :
    professor_id p = professor_id q ∧
    upsert_batch (upsert_batch st [professor_id p] [v1] [m1] true).1
        [professor_id q] [v2] [m2] true =
      ((upsert_batch st [professor_id p] [v1] [m1] true).1, .ok) := by
  have hkey : professor_id p = professor_id q := by
    unfold professor_id
    rw [hn, hu]
  have h1 : professor_id p ∈
      (upsert_batch st [professor_id p] [v1] [m1] true).1.existing_ids :=
    upsert_batch_true_existing st [professor_id p] [v1] [m1]
      (t := (professor_id p, v1, m1)) (by simp [zip3])
  refine ⟨hkey, ?_⟩
  apply upsert_batch_skip
  intro t ht
  simp only [zip3, List.mem_singleton] at ht
  rw [ht, ← hkey]
  exact h1

/-- Two professors sharing name and university but nothing else. -/
def professorSameA : Professor :=
  ⟨"Ada Lovelace", "Computer Science", "Springfield University", 4, 12, [], []⟩

/-- Second professor with the same name and university as
`professorSameA` but a different department and ratings. -/
def professorSameB : Professor :=
  ⟨"Ada Lovelace", "Mathematics", "Springfield University", 3, 7, [], []⟩

/-- Witness for claim C9 at concrete professors differing only outside
name and university. -/
theorem professor_id_dedup_witness :
    professor_id professorSameA = professor_id professorSameB ∧
    upsert_batch (upsert_batch (⟨∅, []⟩ : PineconeClient Nat Nat)
        [professor_id professorSameA] [1] [10] true).1
        [professor_id professorSameB] [2] [20] true =
      ((upsert_batch (⟨∅, []⟩ : PineconeClient Nat Nat)
        [professor_id professorSameA] [1] [10] true).1, .ok) :=
  professor_id_dedup professorSameA professorSameB ⟨∅, []⟩ 1 2 10 20 rfl rfl

/-! ## Lemmas about the review selector -/

/-- Inserting a review into a list commutes with restricting to a fixed
helpful-vote count: the inserted review lands in front of every review
with the same count (every review skipped on the way in has strictly more
votes), which is the stability of the ranking order for ties. -/
lemma filter_votes_orderedInsert (v : Nat) (a : ProfessorReview) :
    ∀ l : List ProfessorReview,
      (List.orderedInsert voteOrder a l).filter
          (fun r => r.helpfulVotes = v) =
        if a.helpfulVotes = v
        then a :: l.filter (fun r => r.helpfulVotes = v)
        else l.filter (fun r => r.helpfulVotes = v) := by
  intro l
  induction l with
  | nil =>
    by_cases hav : a.helpfulVotes = v <;> simp [List.orderedInsert, hav]
  | cons b t ih =>
    rw [List.orderedInsert]
    by_cases hr : voteOrder a b
    · rw [if_pos hr]
      by_cases hav : a.helpfulVotes = v <;> simp [hav, List.filter_cons]
    · rw [if_neg hr]
      by_cases hav : a.helpfulVotes = v
      · have hbv : ¬ b.helpfulVotes = v := by
          intro hb
          exact hr (le_of_eq (hav ▸ hb))
        simp [List.filter_cons, hbv, hav, ih]
      · simp [List.filter_cons, hav, ih]

/-- Claim C8: the ranking step of the selector — the stable descending
sort by helpful votes used in `_filter_top_reviews` — keeps tied reviews
in input order: restricting the sorted list to any fixed helpful-vote
count gives back exactly the input restricted to that count.  The sort is
moreover really a descending sort (sorted under `voteOrder`) and a
permutation of its input, and it is exactly the ranking that
`filter_top_reviews` truncates. -/
theorem ranking_stable_on_ties (l : List ProfessorReview) (v : Nat)
    (f : ProfessorFilter) :
    (List.insertionSort voteOrder l).filter (fun r => r.helpfulVotes = v) =
      l.filter (fun r => r.helpfulVotes = v) ∧
    List.Sorted voteOrder (List.insertionSort voteOrder l) ∧
    (List.insertionSort voteOrder l).Perm l ∧
    f.filter_top_reviews l =
      (List.insertionSort voteOrder l).take (min f.top_n l.length) := by
  refine ⟨?_, List.sorted_insertionSort voteOrder l,
    List.perm_insertionSort voteOrder l, rfl⟩
  induction l with
  | nil => rfl
  | cons a t ih =>
    rw [List.insertionSort, filter_votes_orderedInsert]
    by_cases hav : a.helpfulVotes = v <;> simp [hav, ih, List.filter_cons]

/-- Claim C6: the recency filter keeps exactly the reviews whose age in
whole years — the difference between the configured current year and the
review's calendar year — is at most the configured horizon, removes all
others, and preserves input order; the default horizon of
`ProfessorFilter.__init__` is 6 years. -/
theorem filter_by_recency_exact (f : ProfessorFilter)
    (l : List ProfessorReview) (r : ProfessorReview) (y : Int) :
    (r ∈ f.filter_by_recency l ↔
      r ∈ l ∧ f.current_year - r.date.year ≤ f.years_limit) ∧
    (f.filter_by_recency l).Sublist l ∧
    (ProfessorFilter.init y).years_limit = 6 := by
  refine ⟨?_, List.filter_sublist l, rfl⟩
  simp [ProfessorFilter.filter_by_recency, List.mem_filter]

/-- The two survival predicates of the selector combined: the review is
recent enough and long enough. -/
abbrev passes_both (f : ProfessorFilter) (r : ProfessorReview) : Prop :=
  passes_recency f r ∧ passes_length f r

/-- Applying the two filters in sequence restricts the input to the
reviews passing both predicates, in input order. -/
lemma filter_length_filter_recency (f : ProfessorFilter)
    (l : List ProfessorReview) :
    f.filter_by_review_length (f.filter_by_recency l) =
      l.filter fun r => passes_both f r := by
  unfold ProfessorFilter.filter_by_review_length ProfessorFilter.filter_by_recency
  rw [List.filter_filter]
  apply List.filter_congr
  intro x _
  simp [Bool.and_comm]

/-- A 50-word review body, passing the default length threshold. -/
def longReviewText : String :=
  String.join (List.replicate 50 "good ")

/-- A recent, long review with 1 helpful vote. -/
def reviewOneVote : ProfessorReview :=
  ⟨4, 2, "CS101", ⟨2026, 1, 15⟩, longReviewText, 1, 0,
   none, none, none, none, none, []⟩

/-- A recent, long review with 2 helpful votes, appearing after
`reviewOneVote` in the input. -/
def reviewTwoVotes : ProfessorReview :=
  ⟨5, 3, "CS201", ⟨2026, 2, 20⟩, longReviewText, 2, 0,
   none, none, none, none, none, []⟩

set_option maxRecDepth 100000 in
/-- Counterexample to claim C2 as stated: with the default configuration,
two surviving reviews with helpful votes 1 then 2 come out in the order
2 then 1, so the output is not a subsequence (in relative order) of the
input restricted to the entries passing both predicates. -/
theorem filter_reviews_not_sublist_of_filtered :
    ¬ ((ProfessorFilter.init 2026).filter_reviews
          [reviewOneVote, reviewTwoVotes]).Sublist
        (([reviewOneVote, reviewTwoVotes]).filter
          fun r => passes_both (ProfessorFilter.init 2026) r) := by
  intro h
  have h1 : (ProfessorFilter.init 2026).filter_reviews
      [reviewOneVote, reviewTwoVotes] = [reviewTwoVotes, reviewOneVote] := by
    decide
  have h2 : ([reviewOneVote, reviewTwoVotes]).filter
      (fun r => passes_both (ProfessorFilter.init 2026) r) =
      [reviewOneVote, reviewTwoVotes] := by
    decide
  rw [h1, h2] at h
  have heq : ([reviewTwoVotes, reviewOneVote] : List ProfessorReview) =
      [reviewOneVote, reviewTwoVotes] :=
    h.eq_of_length rfl
  have hne : reviewTwoVotes ≠ reviewOneVote := by decide
  exact hne (List.head_eq_of_cons_eq heq)

/-- Claim C2 (amended): the output of `filter_reviews` has size at most
`top_n` and is, up to the reordering performed by the ranking, contained
in the input restricted to the entries passing both the recency and the
length predicate: it is a subsequence of the stable descending-by-votes
sort of that restriction, and hence a sub-multiset (membership with
multiplicity, but not relative input order, which the sort changes) of the
restriction itself. -/
theorem filter_reviews_bounded_subperm (f : ProfessorFilter)
    (l : List ProfessorReview) :
    (f.filter_reviews l).length ≤ f.top_n ∧
    (f.filter_reviews l).Sublist
      (List.insertionSort voteOrder (l.filter fun r => passes_both f r)) ∧
    (f.filter_reviews l).Subperm (l.filter fun r => passes_both f r) := by
  have hsub : (f.filter_reviews l).Sublist
      (List.insertionSort voteOrder (l.filter fun r => passes_both f r)) := by
    unfold ProfessorFilter.filter_reviews ProfessorFilter.filter_top_reviews
    rw [filter_length_filter_recency]
    exact List.take_sublist _ _
  refine ⟨?_, hsub, ?_⟩
  · unfold ProfessorFilter.filter_reviews ProfessorFilter.filter_top_reviews
    rw [List.length_take]
    exact le_trans (Nat.min_le_left _ _) (Nat.min_le_left _ _)
  · exact List.Subperm.trans (List.Sublist.subperm hsub)
      (List.Perm.subperm (List.perm_insertionSort voteOrder _))

/-! ## Lemmas about the embedding composer -/

/-- A sum of squared entries is nonnegative. -/
lemma sumSq_nonneg (v : List ℝ) : 0 ≤ sumSq v := by
  apply List.sum_nonneg
  intro x hx
  rw [List.mem_map] at hx
  obtain ⟨y, _, rfl⟩ := hx
  positivity

/-- The squared norm is the sum of squares. -/
lemma sumSq_eq_l2norm_sq (v : List ℝ) : sumSq v = l2norm v ^ 2 :=
  (Real.sq_sqrt (sumSq_nonneg v)).symm

/-- The norm vanishes exactly when the sum of squares does. -/
lemma l2norm_eq_zero_iff (v : List ℝ) : l2norm v = 0 ↔ sumSq v = 0 := by
  rw [l2norm, Real.sqrt_eq_zero']
  exact ⟨fun hle => le_antisymm hle (sumSq_nonneg v), le_of_eq⟩

/-- Squared entries of a concatenation add up blockwise. -/
lemma sumSq_append (a b : List ℝ) : sumSq (a ++ b) = sumSq a + sumSq b := by
  simp [sumSq]

/-- Scaling a vector scales its sum of squares by the square of the factor. -/
lemma sumSq_vecScale (c : ℝ) (v : List ℝ) :
    sumSq (vecScale c v) = c ^ 2 * sumSq v := by
  simp only [sumSq, vecScale, List.map_map, Function.comp_def, mul_pow]
  rw [List.sum_map_mul_left]

/-- Normalizing a vector of non-zero norm yields a unit vector. -/
lemma l2norm_l2normalize {v : List ℝ} (h : l2norm v ≠ 0) :
    l2norm (l2normalize v) = 1 := by
  have hs0 : sumSq v ≠ 0 := fun h0 => h ((l2norm_eq_zero_iff v).mpr h0)
  rw [l2normalize, if_neg h]
  have hmap : sumSq (v.map fun x => x / l2norm v) = sumSq v / l2norm v ^ 2 := by
    simp only [sumSq, List.map_map, Function.comp_def, div_eq_mul_inv,
      mul_pow, inv_pow]
    rw [List.sum_map_mul_right]
  rw [l2norm, hmap, ← sumSq_eq_l2norm_sq, div_self hs0, Real.sqrt_one]

/-- A unit-normalized vector has unit sum of squares. -/
lemma sumSq_l2normalize {v : List ℝ} (h : l2norm v ≠ 0) :
    sumSq (l2normalize v) = 1 := by
  rw [sumSq_eq_l2norm_sq, l2norm_l2normalize h]
  norm_num

/-- Appending a non-trivially scaled unit-normalized block keeps the norm
away from zero. -/
lemma l2norm_append_scaled_unit (A : List ℝ) {w : ℝ} (hw : w ≠ 0)
    {m : List ℝ} (hm : l2norm m ≠ 0) :
    l2norm (A ++ vecScale w (l2normalize m)) ≠ 0 := by
  rw [Ne, l2norm_eq_zero_iff, sumSq_append, sumSq_vecScale,
    sumSq_l2normalize hm, mul_one]
  intro habs
  have hA := sumSq_nonneg A
  have hw2 : 0 < w ^ 2 := by positivity
  linarith

/-- The norm of the all-zeros vector is zero, so normalizing leaves it
unchanged (the zero-guard of `sklearn` normalize). -/
lemma l2normalize_replicate_zero (d : Nat) :
    l2normalize (List.replicate d (0 : ℝ)) = List.replicate d 0 := by
  have h0 : l2norm (List.replicate d (0 : ℝ)) = 0 := by
    rw [l2norm_eq_zero_iff]
    simp [sumSq]
  rw [l2normalize, if_pos h0]

/-- Scaling by zero yields the all-zeros vector of the same length. -/
lemma vecScale_zero (v : List ℝ) :
    vecScale 0 v = List.replicate v.length 0 := by
  induction v with
  | nil => rfl
  | cons x t ih =>
    simp only [vecScale, List.map_cons, zero_mul, List.length_cons,
      List.replicate_succ] at ih ⊢
    rw [ih]

/-- The first `d` entries of the normalization of `zeros ++ B` are zero. -/
lemma take_l2normalize_append_zeros (d : Nat) (B : List ℝ) :
    (l2normalize (List.replicate d (0 : ℝ) ++ B)).take d =
      List.replicate d 0 := by
  have htake : (List.replicate d (0 : ℝ) ++ B).take d =
      List.replicate d (0 : ℝ) := by
    have := List.take_left (List.replicate d (0 : ℝ)) B
    rwa [List.length_replicate] at this
  rw [l2normalize]
  split
  · exact htake
  · rw [← List.map_take, htake, List.map_replicate, zero_div]

/-- Claim C3: with a non-empty review list and no tags, the composer
overrides the caller-supplied weights (the result does not depend on
them), and the tag block — the first `embedding_dim` entries of the output
— is exactly the zero vector. -/
theorem generate_professor_embedding_empty_tags
    (encode : List String → List (List ℝ)) (embedding_dim : Nat)
    (review_texts : List String) (wt wr wt2 wr2 : ℝ)
    (h : review_texts ≠ []) :
    generate_professor_embedding encode embedding_dim [] review_texts wt wr =
      generate_professor_embedding encode embedding_dim [] review_texts wt2 wr2 ∧
    (generate_professor_embedding encode embedding_dim [] review_texts
        wt wr).take embedding_dim = List.replicate embedding_dim 0 := by
  constructor
  · rfl
  · simp only [generate_professor_embedding, List.isEmpty_nil, if_true]
    rw [l2normalize_replicate_zero, vecScale_zero, List.length_replicate]
    exact take_l2normalize_append_zeros embedding_dim _

/-- The trivial encoder used by the witnesses: every text maps to the
one-dimensional vector `[1]`. -/
def encodeConstOne : List String → List (List ℝ) :=
  fun texts => texts.map fun _ => [1]

/-- Witness for claim C3 at a concrete input. -/
theorem generate_professor_embedding_empty_tags_witness :
    generate_professor_embedding encodeConstOne 1 [] ["x"] 0.3 0.7 =
      generate_professor_embedding encodeConstOne 1 [] ["x"] 0 1 ∧
    (generate_professor_embedding encodeConstOne 1 [] ["x"] 0.3 0.7).take 1 =
      List.replicate 1 0 :=
  generate_professor_embedding_empty_tags encodeConstOne 1 ["x"] 0.3 0.7 0 1
    (by simp)

/-- Claim C7: with the default weights, whenever the averaged review
embedding is non-zero the composed vector has L2 norm exactly 1 (the model
works in exact real arithmetic, so "within floating-point tolerance"
becomes equality), because the concatenated weighted vector is
unit-normalized as the final step. -/
theorem generate_professor_embedding_unit_norm
    (encode : List String → List (List ℝ)) (embedding_dim : Nat)
    (tags review_texts : List String)
    (h : review_texts ≠ [])
    (hm : l2norm (vecMean embedding_dim (encode review_texts)) ≠ 0) :
    l2norm (generate_professor_embedding encode embedding_dim tags
      review_texts 0.3 0.7) = 1 := by
  have key : ∀ (wT : ℝ) (tagvec : List ℝ) (wR : ℝ), wR ≠ 0 →
      l2norm (l2normalize (vecScale wT (l2normalize tagvec) ++
        vecScale wR (l2normalize
          (vecMean embedding_dim (encode review_texts))))) = 1 :=
    fun wT tagvec wR hwR =>
      l2norm_l2normalize (l2norm_append_scaled_unit _ hwR hm)
  simp only [generate_professor_embedding]
  by_cases htags : tags.isEmpty = true
  · rw [if_pos htags, if_pos htags, if_pos htags]
    exact key 0 _ 1 one_ne_zero
  · rw [if_neg htags, if_neg htags, if_neg htags]
    exact key 0.3 _ 0.7 (by norm_num)

/-- Witness for claim C7 at a concrete input with a non-zero averaged
review embedding. -/
theorem generate_professor_embedding_unit_norm_witness :
    l2norm (generate_professor_embedding encodeConstOne 1 [] ["x"] 0.3 0.7)
      = 1 :=
  generate_professor_embedding_unit_norm encodeConstOne 1 [] ["x"] (by simp)
    (by
      have hmean : vecMean 1 (encodeConstOne ["x"]) = [1] := by
        simp [encodeConstOne, vecMean, vecSum, vecAdd]
      rw [hmean]
      have : l2norm [(1 : ℝ)] = 1 := by
        rw [l2norm]
        simp [sumSq]
      rw [this]
      exact one_ne_zero)

/-! ## The discovery scenario of claim C5 -/

/-- Card `j` of scenario page `i`: a distinct absolute link and a
positive review count. -/
def scenarioCard (i j : Nat) : TeacherCard :=
  ⟨some ("http" ++ toString i ++ "_" ++ toString j), some 1⟩

/-- Scenario page `i`: 40 cards, all new relative to the other pages. -/
def scenarioPage (i : Nat) : List TeacherCard :=
  (List.range 40).map fun j => scenarioCard i j

/-- The three successive directory pages of the scenario; the expand
control disappears after the third. -/
def scenarioPages : List (List TeacherCard) :=
  [scenarioPage 1, scenarioPage 2, scenarioPage 3]

set_option maxRecDepth 1000000 in
set_option maxHeartbeats 4000000 in
/-- Claim C5: over 3 successive pages of 40 new links each, with the
expand control gone after the third page, discovery with `max_links = 100`
returns the union of all three pages' links — 120 of them: the cap is only
checked between pages and collected links are never discarded. -/
theorem discover_keeps_all_links :
    search_school_for_professor_links scenarioPages 100 ⊆
      scanCards ∅ (scenarioPage 1) ∪ scanCards ∅ (scenarioPage 2) ∪
        scanCards ∅ (scenarioPage 3) ∧
    scanCards ∅ (scenarioPage 1) ∪ scanCards ∅ (scenarioPage 2) ∪
        scanCards ∅ (scenarioPage 3) ⊆
      search_school_for_professor_links scenarioPages 100 ∧
    (search_school_for_professor_links scenarioPages 100).card = 120 := by
  decide

end ScrapeRPM
